import Mathlib

/-!
Verification development for the GiNOD repository
(`game_induced_opinion_dynamics/GiNOD`): a shallow embedding of
`cost.py` and `RHCPlanner.py` together with theorems about the
cost-evaluation machinery and the receding-horizon planning loop.

Conventions of the embedding:
* jax/numpy floating-point values are modelled by elements of a
  commutative ring `α` for the purely structural code (folds, array
  writes, the planning loop), and by the real numbers `ℝ` for the
  analytic cost formulas (`exp`, `sqrt`, derivatives).
* a 1-d array is a `List α` (or an index function `Nat → α` where the
  source only ever indexes it); a 2-d array of shape (n, N) is either a
  list of its N columns (`List (List α)`) or an index function
  `Nat → Nat → α` with `x i k` the entry in row i, column k.
* `lax.fori_loop(0, n, body, init)` is `(List.range n).foldl body init`.
* fallible numpy array writes (index errors) return `Option`; a python
  `raise` inside `RHCPlanner.plan` is the `Except.error` branch.
-/

namespace GiNOD

/-! ## Part 1 — definitions -/

/-- The k-th column `x[:, k]` of a matrix stored as `x i k`. -/
def col {α : Type} (x : Nat → Nat → α) (k : Nat) : Nat → α :=
  fun i => x i k

/-! ### `cost.py`: the `Cost` base class

A concrete `Cost` object is determined by its pointwise `get_cost`
function together with the constructor data `horizon`, `x_dim`,
`ui_dim` (`Cost.__init__`).  The trajectory evaluator `get_traj_cost`
is derived from `get_cost` exactly as in the source
(`jnp.zeros(horizon)` buffer plus a `fori_loop` writing entry `k`). -/

/-- `Cost.__init__`: a cost object is its single-timestep evaluator
`get_cost(x, ui, k)` plus the fixed horizon and dimensions. -/
structure Cost (α : Type) where
  get_cost : (Nat → α) → (Nat → α) → Nat → α
  horizon : Nat
  x_dim : Nat
  ui_dim : Nat

/-- `Cost.get_traj_cost`: `costs = jnp.zeros(horizon)` then
`lax.fori_loop(0, horizon, looper, costs)` where the looper sets
`costs[k] = get_cost(x[:, k], ui[:, k], k)`. -/
def Cost.get_traj_cost {α : Type} [CommRing α] (c : Cost α)
    (x ui : Nat → Nat → α) : List α :=
  (List.range c.horizon).foldl
    (fun costs k => costs.set k (c.get_cost (col x k) (col ui k) k))
    (List.replicate c.horizon (0 : α))

/-! ### `cost.py`: `PlayerCost`

`PlayerCost.__init__` keeps three parallel lists `_costs`, `_args`,
`_weights`; `add_cost` appends to each; `get_cost` folds
`total_cost += weight * cost.get_traj_cost(x, ui)` over
`zip(_costs, _weights)` starting from the python scalar `0.`.
numpy broadcasting of a scalar accumulator against array summands is
modelled by the `NpVal` sum type. -/

/-- A numpy value that is either a python/jax scalar or a 1-d array. -/
inductive NpVal (α : Type) where
  | scalar (a : α)
  | arr (l : List α)
deriving DecidableEq

/-- numpy `+` with scalar↔array broadcasting. -/
def npAdd {α : Type} [CommRing α] : NpVal α → NpVal α → NpVal α
  | .scalar a, .scalar b => .scalar (a + b)
  | .scalar a, .arr l => .arr (l.map (fun v => a + v))
  | .arr l, .scalar a => .arr (l.map (fun v => v + a))
  | .arr l, .arr m => .arr (List.zipWith (fun v w => v + w) l m)

/-- The argument tag passed to `add_cost`: the string `"x"` (`none`)
or a player index (`some i`). -/
def ArgTag : Type := Option Nat

/-- `PlayerCost`: the three parallel registration lists. -/
structure PlayerCost (α : Type) where
  costs : List (Cost α)
  args : List ArgTag
  weights : List α

/-- `PlayerCost.add_cost(cost, arg, weight)`. -/
def PlayerCost.add_cost {α : Type} (pc : PlayerCost α) (c : Cost α)
    (arg : ArgTag) (weight : α) : PlayerCost α :=
  ⟨pc.costs ++ [c], pc.args ++ [arg], pc.weights ++ [weight]⟩

/-- `PlayerCost.get_cost(x, ui, k)`: `total_cost = 0.` then
`total_cost += weight * cost.get_traj_cost(x, ui)` for
`cost, weight in zip(self._costs, self._weights)`.  The parameter `k`
is accepted (source signature) but never read. -/
def PlayerCost.get_cost {α : Type} [CommRing α] (pc : PlayerCost α)
    (x ui : Nat → Nat → α) (_k : Nat) : NpVal α :=
  (pc.costs.zip pc.weights).foldl
    (fun total cw =>
      npAdd total (NpVal.arr ((cw.1.get_traj_cost x ui).map (fun v => cw.2 * v))))
    (NpVal.scalar 0)

/-! ### `cost.py`: concrete cost variants over `ℝ`

`jnp.exp`, `jnp.sqrt`, `jnp.minimum` on floats are modelled by
`Real.exp`, `Real.sqrt`, `min` on `ℝ`. -/

noncomputable section

/-- `QuadraticCost.__init__(dimension, origin, is_x, ...)`. -/
structure QuadraticCost where
  dimension : Nat
  origin : ℝ
  is_x : Bool

/-- `QuadraticCost.get_cost`: `(x[dim] - origin)**2` when `is_x` else
`(ui[dim] - origin)**2`. -/
def QuadraticCost.get_cost (c : QuadraticCost)
    (x ui : Nat → ℝ) (_k : Nat) : ℝ :=
  if c.is_x then (x c.dimension - c.origin) ^ 2
  else (ui c.dimension - c.origin) ^ 2

/-- `BoxInputConstraintCost.__init__(u_index, control_min, control_max, q1, q2, ...)`. -/
structure BoxInputConstraintCost where
  u_index : Nat
  control_min : ℝ
  control_max : ℝ
  q1 : ℝ
  q2 : ℝ

/-- `BoxInputConstraintCost.get_cost`:
`control = ui[u_index]; margin_ub = control - control_max;`
`margin_lb = control_min - control;`
`c_ub = q1*(exp(q2*margin_ub) - 1); c_lb = q1*(exp(q2*margin_lb) - 1);`
`return c_lb + c_ub`. -/
def BoxInputConstraintCost.get_cost (c : BoxInputConstraintCost)
    (_x ui : Nat → ℝ) (_k : Nat) : ℝ :=
  let control := ui c.u_index
  let margin_ub := control - c.control_max
  let margin_lb := c.control_min - control
  let c_ub := c.q1 * (Real.exp (c.q2 * margin_ub) - 1)
  let c_lb := c.q1 * (Real.exp (c.q2 * margin_lb) - 1)
  c_lb + c_ub

/-- `ProductStateProximityCostTwoPlayer.__init__` stores the two
players' (x, y) state-index pairs and `max_distance`;
`self._max_exp_bound = 1e5` is fixed by the constructor. -/
structure ProductStateProximityCostTwoPlayer where
  idx1 : Nat × Nat
  idx2 : Nat × Nat
  max_distance : ℝ

/-- `self._max_exp_bound = 1e5`. -/
def proximityMaxExpBound : ℝ := 100000

/-- `ProductStateProximityCostTwoPlayer.get_cost`: `total_cost = 0.`;
for each of the two (hardcoded) players, add
`min(exp(min(rel_dist - max_distance, 0.)**2), max_exp_bound)` where
`rel_dist` is the Euclidean distance between the two players'
positions. -/
def ProductStateProximityCostTwoPlayer.get_cost
    (c : ProductStateProximityCostTwoPlayer) (x : Nat → ℝ)
    (_ui : Nat → ℝ) (_k : Nat) : ℝ :=
  let relDist1 := Real.sqrt ((x c.idx1.1 - x c.idx2.1) ^ 2 + (x c.idx1.2 - x c.idx2.2) ^ 2)
  let term1 := min (Real.exp ((min (relDist1 - c.max_distance) 0) ^ 2)) proximityMaxExpBound
  let relDist2 := Real.sqrt ((x c.idx2.1 - x c.idx1.1) ^ 2 + (x c.idx2.2 - x c.idx1.2) ^ 2)
  let term2 := min (Real.exp ((min (relDist2 - c.max_distance) 0) ^ 2)) proximityMaxExpBound
  0 + term1 + term2

/-! ### `cost.py`: the derivative engine

Modelled from the spec: `Cost.get_grad` and `Cost.get_hess` call the
third-party automatic differentiation routines `jax.jacfwd` and
`jax.hessian` on `get_cost`; per §4.1/§9 of the spec these produce the
exact first and second partial derivatives (not finite differences),
which is what the following definitions compute with Mathlib's
`deriv`. -/

/-- Component i of `jacfwd(get_cost, argnums=0)`: the partial
derivative of the scalar cost in the i-th state coordinate. -/
def gradX (f : (Nat → ℝ) → (Nat → ℝ) → Nat → ℝ)
    (x ui : Nat → ℝ) (k i : Nat) : ℝ :=
  deriv (fun t => f (Function.update x i t) ui k) (x i)

/-- Component i of `jacfwd(get_cost, argnums=1)`: the partial
derivative of the scalar cost in the i-th control coordinate. -/
def gradU (f : (Nat → ℝ) → (Nat → ℝ) → Nat → ℝ)
    (x ui : Nat → ℝ) (k i : Nat) : ℝ :=
  deriv (fun t => f x (Function.update ui i t) k) (ui i)

/-- Entry (i, j) of `hessian(get_cost, argnums=0)`: the second partial
derivative in state coordinates i and j. -/
def hessXX (f : (Nat → ℝ) → (Nat → ℝ) → Nat → ℝ)
    (x ui : Nat → ℝ) (k i j : Nat) : ℝ :=
  deriv (fun s => gradX f (Function.update x j s) ui k i) (x j)

/-- Entry (i, j) of `hessian(get_cost, argnums=1)`: the second partial
derivative in control coordinates i and j. -/
def hessUU (f : (Nat → ℝ) → (Nat → ℝ) → Nat → ℝ)
    (x ui : Nat → ℝ) (k i j : Nat) : ℝ :=
  deriv (fun s => gradU f x (Function.update ui j s) k i) (ui j)

/-- `Cost.get_grad(x, ui, k)`: the pair (dc/dx, dc/dui). -/
def get_grad (f : (Nat → ℝ) → (Nat → ℝ) → Nat → ℝ)
    (x ui : Nat → ℝ) (k : Nat) : (Nat → ℝ) × (Nat → ℝ) :=
  (fun i => gradX f x ui k i, fun i => gradU f x ui k i)

/-- `Cost.get_hess(x, ui, k)`: the pair (Hxx, Huu) — the mixed x–u
Hessian is not computed in the source either. -/
def get_hess (f : (Nat → ℝ) → (Nat → ℝ) → Nat → ℝ)
    (x ui : Nat → ℝ) (k : Nat) : (Nat → Nat → ℝ) × (Nat → Nat → ℝ) :=
  (fun i j => hessXX f x ui k i j, fun i j => hessUU f x ui k i j)

end

/-! ### `RHCPlanner.py`

`RHCPlanner.plan(x0, z0)` is embedded as a fold of a per-step function
over `range(N_sim)` in the `Except` monad: a python `raise`
(`NotImplementedError` on an unknown `method`, numpy `IndexError` on an
out-of-bounds array write) is an `Except.error`.  The external
collaborators (the per-mode subgame solvers, the two QMDP planners, the
GiNOD opinion-dynamics model and the physical system) are opaque
functions supplied in the configuration record, mirroring the
interfaces of §6 of the spec.  Trajectory arrays `xs`, `zs` (and the
logs `Hs`, `PoI`) are stored as lists of their columns. -/

/-- What `plan` reads out of one subgame solve at one mode pair:
`xs_ILQ[:, look_ahead]`, `Zs[0/1, :, :]`, `zetas[0/1, :]`,
`nom_costs[0/1]` (lines 96–106 of `RHCPlanner.py`). -/
structure SubRes (α : Type) where
  xnomCol : List α
  Z1 : List (List α)
  Z2 : List (List α)
  zeta1 : List α
  zeta2 : List α
  nomCost1 : α
  nomCost2 : α

/-- The tuple returned by `GiNOD.cont_time_dyn(x_jnt, None, subgame_k)`:
`(z_dot_k, H_k, PoI1_k, PoI2_k)`. -/
structure GinodOut (α : Type) where
  zdot : List α
  H : List (List α)
  poi1 : α
  poi2 : α

/-- The per-step mode-indexed arrays of the subgame bundle.  `Z1`,
`Z2`, `zeta1`, `zeta2`, `xnom` are allocated with nz1 × nz2 mode slots
(index functions over written slices); `nomCost1`, `nomCost2` are the
`np.zeros((2, 2))` grids whose writes are bounds-checked. -/
structure BundleGrids (α : Type) where
  Z1 : Nat → Nat → List (List α)
  Z2 : Nat → Nat → List (List α)
  zeta1 : Nat → Nat → List α
  zeta2 : Nat → Nat → List α
  xnom : Nat → Nat → List α
  nomCost1 : List (List α)
  nomCost2 : List (List α)

/-- The full `subgame_k` tuple
`(Z1_k, Z2_k, zeta1_k, zeta2_k, xnom_k, znom1_k, znom2_k, nom_cost1_k, nom_cost2_k)`. -/
structure Bundle (α : Type) where
  grids : BundleGrids α
  znom1 : List α
  znom2 : List α

/-- Write slot (i, j) of a mode-indexed grid. -/
def upd2 {β : Type} (f : Nat → Nat → β) (i j : Nat) (v : β) : Nat → Nat → β :=
  fun a b => if a = i ∧ b = j then v else f a b

/-- Bounds-checked numpy write `l[i] = v` (raises `IndexError`, i.e.
`none`, when out of bounds). -/
def setChecked {α : Type} (l : List α) (i : Nat) (v : α) : Option (List α) :=
  if i < l.length then some (l.set i v) else none

/-- Bounds-checked numpy write `m[i, j] = v` on a 2-d array stored as
rows. -/
def set2D {α : Type} (m : List (List α)) (i j : Nat) (v : α) :
    Option (List (List α)) := do
  let row ← m.get? i
  let row2 ← setChecked row j v
  setChecked m i row2

/-- The iteration order of the nested subgame loops:
`for l1 in range(nz1): for l2 in range(nz2)`. -/
def modePairs (nz1 nz2 : Nat) : List (Nat × Nat) :=
  (List.range nz1).flatMap (fun l1 => (List.range nz2).map (fun l2 => (l1, l2)))

/-- The freshly allocated per-step bundle arrays (lines 83–89):
everything `np.zeros` with nx-sized slices, except the nominal-cost
grids which are `np.zeros((2, 2))` regardless of nz1, nz2. -/
def initGrids {α : Type} [CommRing α] (nx : Nat) : BundleGrids α :=
  { Z1 := fun _ _ => List.replicate nx (List.replicate nx 0)
  , Z2 := fun _ _ => List.replicate nx (List.replicate nx 0)
  , zeta1 := fun _ _ => List.replicate nx 0
  , zeta2 := fun _ _ => List.replicate nx 0
  , xnom := fun _ _ => List.replicate nx 0
  , nomCost1 := List.replicate 2 (List.replicate 2 0)
  , nomCost2 := List.replicate 2 (List.replicate 2 0) }

/-- The body of the nested subgame loop at mode pair `p = (l1, l2)`
(lines 94–106): solve the subgame at the current state and write every
extracted piece into its (l1, l2) slot.  The `nom_cost` writes go
through the bounds check of the fixed 2×2 grids. -/
def bundleStep {α : Type} (sub : Nat → Nat → SubRes α)
    (g : BundleGrids α) (p : Nat × Nat) : Option (BundleGrids α) := do
  let n1 ← set2D g.nomCost1 p.1 p.2 (sub p.1 p.2).nomCost1
  let n2 ← set2D g.nomCost2 p.1 p.2 (sub p.1 p.2).nomCost2
  some { Z1 := upd2 g.Z1 p.1 p.2 (sub p.1 p.2).Z1
       , Z2 := upd2 g.Z2 p.1 p.2 (sub p.1 p.2).Z2
       , zeta1 := upd2 g.zeta1 p.1 p.2 (sub p.1 p.2).zeta1
       , zeta2 := upd2 g.zeta2 p.1 p.2 (sub p.1 p.2).zeta2
       , xnom := upd2 g.xnom p.1 p.2 (sub p.1 p.2).xnomCol
       , nomCost1 := n1
       , nomCost2 := n2 }

/-- The whole nested subgame loop of one planning step: fold the loop
body over the (l1, l2) grid starting from the fresh allocations. -/
def buildBundle {α : Type} [CommRing α] (nx nz1 nz2 : Nat)
    (sub : Nat → Nat → SubRes α) : Option (BundleGrids α) :=
  (modePairs nz1 nz2).foldlM (bundleStep sub) (initGrids nx)

/-- The two ways `RHCPlanner.plan` can raise. -/
inductive PlanError where
  /-- numpy `IndexError` from an out-of-bounds bundle write. -/
  | indexError
  /-- `raise NotImplementedError` on an unrecognized `method`. -/
  | methodError
deriving DecidableEq, Repr

/-- The planner configuration: constructor arguments of
`RHCPlanner.__init__` plus the opaque collaborators of §6.  `U` is the
(opaque) type of a QMDP action. -/
structure PlanCfg (α U : Type) where
  Nsim : Nat
  method : String
  /-- `self._GiNOD._num_opn_P1`. -/
  nz1 : Nat
  /-- `self._GiNOD._num_opn_P2`. -/
  nz2 : Nat
  /-- `self._GiNOD._T`, the fixed integration timestep. -/
  T : α
  x0 : List α
  z0 : List α
  /-- `self._subgames[l1][l2].run(x)` plus the `_best_operating_point`
  extraction. -/
  subgame : Nat → Nat → List α → SubRes α
  /-- `self._GiNOD.cont_time_dyn(x_jnt, None, subgame_k)` (the unused
  control slot is omitted). -/
  ginod : List α → Bundle α → GinodOut α
  /-- `self._QMDP_P1.plan_level_0(x, z1, z2, subgames)`; the constant
  solver list argument is part of the opaque closure. -/
  qmdpL0P1 : List α → List α → List α → U
  /-- `self._QMDP_P2.plan_level_0(x, z2, z1, subgames)`. -/
  qmdpL0P2 : List α → List α → List α → U
  /-- `self._QMDP_P1.plan_level_1(x, z1, z2, att1, att2, subgames, subgame_k)`
  (`att1` is the length-1 slice `zs[nz1+nz2:nz1+nz2+1, k]`, `att2` the
  scalar `zs[-1, k]`). -/
  qmdpL1P1 : List α → List α → List α → List α → α → Bundle α → U
  /-- `self._QMDP_P2.plan_level_1(x, z2, z1, att2, att1, subgames, subgame_k)`. -/
  qmdpL1P2 : List α → List α → List α → α → List α → Bundle α → U
  /-- `self._ph_sys.disc_time_dyn(x, [u1, u2])`. -/
  phSys : List α → U → U → List α

/-- The four result arrays of the loop, as lists of columns. -/
structure PlanState (α : Type) where
  xs : List (List α)
  zs : List (List α)
  Hs : List (List (List α))
  PoI : List (List α)
deriving DecidableEq, Repr

/-- Column read `m[:, k]` of a column-stored array. -/
def getCol {α : Type} (m : List (List α)) (k : Nat) : List α :=
  m.getD k []

/-- numpy `v[-1]`: the last entry of a column. -/
def lastD {α : Type} [CommRing α] (l : List α) : α :=
  l.getD (l.length - 1) 0

/-- Lines 111–116: the opinion references.  At `k = 0` they are the
slices `z0[:nz1]` and `z0[nz1:nz1+nz2]` of the initial opinion vector;
for `k > 0` the same slices of the PREVIOUS step's opinion column
`zs[:, k-1]`. -/
def znomPair {α U : Type} (cfg : PlanCfg α U) (k : Nat)
    (zs : List (List α)) : List α × List α :=
  if k = 0 then
    (cfg.z0.take cfg.nz1, (cfg.z0.drop cfg.nz1).take cfg.nz2)
  else
    ((getCol zs (k - 1)).take cfg.nz1,
     ((getCol zs (k - 1)).drop cfg.nz1).take cfg.nz2)

/-- The step-k subgame bundle: the nested subgame loop at the current
physical column `xk`, plus the opinion references from `znomPair`. -/
def bundleAt {α U : Type} [CommRing α] (cfg : PlanCfg α U) (k : Nat)
    (xk : List α) (zs : List (List α)) : Option (Bundle α) :=
  (buildBundle cfg.x0.length cfg.nz1 cfg.nz2
      (fun l1 l2 => cfg.subgame l1 l2 xk)).map
    (fun g => ⟨g, (znomPair cfg k zs).1, (znomPair cfg k zs).2⟩)

/-- `z1_k = zs[:nz1, k]` (line 118). -/
def zSlice1 {α U : Type} (cfg : PlanCfg α U) (zk : List α) : List α :=
  zk.take cfg.nz1

/-- `z2_k = zs[nz1:nz1+nz2, k]` (line 119). -/
def zSlice2 {α U : Type} (cfg : PlanCfg α U) (zk : List α) : List α :=
  (zk.drop cfg.nz1).take cfg.nz2

/-- `att1_k = zs[nz1+nz2:nz1+nz2+1, k]` (line 120), a length-1 slice. -/
def attSlice1 {α U : Type} (cfg : PlanCfg α U) (zk : List α) : List α :=
  (zk.drop (cfg.nz1 + cfg.nz2)).take 1

/-- Lines 118–151: slice the current opinions `z1_k`, `z2_k` and
attention values `att1_k`, `att2_k = zs[-1, k]` from `zs[:, k]` and
dispatch on `method`; an unrecognized method string is
`raise NotImplementedError`. -/
def dispatch {α U : Type} [CommRing α] (cfg : PlanCfg α U) (k : Nat)
    (s : PlanState α) (b : Bundle α) : Except PlanError (U × U) :=
  if cfg.method = "QMDPL0" then
    .ok (cfg.qmdpL0P1 (getCol s.xs k) (zSlice1 cfg (getCol s.zs k))
           (zSlice2 cfg (getCol s.zs k)),
         cfg.qmdpL0P2 (getCol s.xs k) (zSlice2 cfg (getCol s.zs k))
           (zSlice1 cfg (getCol s.zs k)))
  else if cfg.method = "QMDPL1" then
    .ok (cfg.qmdpL1P1 (getCol s.xs k) (zSlice1 cfg (getCol s.zs k))
           (zSlice2 cfg (getCol s.zs k)) (attSlice1 cfg (getCol s.zs k))
           (lastD (getCol s.zs k)) b,
         cfg.qmdpL1P2 (getCol s.xs k) (zSlice2 cfg (getCol s.zs k))
           (zSlice1 cfg (getCol s.zs k)) (lastD (getCol s.zs k))
           (attSlice1 cfg (getCol s.zs k)) b)
  else if cfg.method = "QMDPL1L0" then
    .ok (cfg.qmdpL1P1 (getCol s.xs k) (zSlice1 cfg (getCol s.zs k))
           (zSlice2 cfg (getCol s.zs k)) (attSlice1 cfg (getCol s.zs k))
           (lastD (getCol s.zs k)) b,
         cfg.qmdpL0P2 (getCol s.xs k) (zSlice2 cfg (getCol s.zs k))
           (zSlice1 cfg (getCol s.zs k)))
  else
    .error .methodError

/-- Lines 153–166: given the step-k bundle and actions, evolve the
GiNOD (`zs[:, k+1] = zs[:, k] + T * z_dot`, forward Euler), record the
Hessian and PoI columns, and evolve the physical system
(`xs[:, k+1] = disc_time_dyn(xs[:, k], [u1, u2])`). -/
def applyStep {α U : Type} [CommRing α] (cfg : PlanCfg α U) (k : Nat)
    (s : PlanState α) (b : Bundle α) (u1 u2 : U) : PlanState α :=
  let xk := getCol s.xs k
  let zk := getCol s.zs k
  let g := cfg.ginod (xk ++ zk) b
  { xs := s.xs.set (k + 1) (cfg.phSys xk u1 u2)
  , zs := s.zs.set (k + 1)
      (List.zipWith (fun z d => z + cfg.T * d) zk g.zdot)
  , Hs := s.Hs.set k g.H
  , PoI := s.PoI.set k [g.poi1, g.poi2] }

/-- The tail of one loop iteration, after the bundle has been built:
dispatch on the method, then apply the state updates. -/
def stepGo {α U : Type} [CommRing α] (cfg : PlanCfg α U) (k : Nat)
    (s : PlanState α) (b : Bundle α) : Except PlanError (PlanState α) :=
  match dispatch cfg k s b with
  | .error e => .error e
  | .ok (u1, u2) => .ok (applyStep cfg k s b u1 u2)

/-- One iteration of `for k in range(self._N_sim)`. -/
def step {α U : Type} [CommRing α] (cfg : PlanCfg α U) (k : Nat)
    (s : PlanState α) : Except PlanError (PlanState α) :=
  match bundleAt cfg k (getCol s.xs k) s.zs with
  | none => .error .indexError
  | some b => stepGo cfg k s b

/-- Lines 68–79: the preallocated result arrays with
`xs[:, 0] = x0`, `zs[:, 0] = z0`. -/
def initState {α U : Type} [CommRing α] (cfg : PlanCfg α U) : PlanState α :=
  { xs := (List.replicate (cfg.Nsim + 1)
      (List.replicate cfg.x0.length (0 : α))).set 0 cfg.x0
  , zs := (List.replicate (cfg.Nsim + 1)
      (List.replicate cfg.z0.length (0 : α))).set 0 cfg.z0
  , Hs := List.replicate cfg.Nsim
      (List.replicate (cfg.nz1 + cfg.nz2)
        (List.replicate (cfg.nz1 + cfg.nz2) (0 : α)))
  , PoI := List.replicate cfg.Nsim (List.replicate 2 (0 : α)) }

/-- Run the loop body for the given list of step indices, stopping at
the first raise. -/
def runSteps {α U : Type} [CommRing α] (cfg : PlanCfg α U) :
    List Nat → PlanState α → Except PlanError (PlanState α)
  | [], s => .ok s
  | k :: ks, s =>
    match step cfg k s with
    | .error e => .error e
    | .ok s2 => runSteps cfg ks s2

/-- The first `n` iterations of `for k in range(self._N_sim)`. -/
def planLoop {α U : Type} [CommRing α] (cfg : PlanCfg α U) (n : Nat) :
    Except PlanError (PlanState α) :=
  runSteps cfg (List.range n) (initState cfg)

/-- `RHCPlanner.plan(x0, z0)`: run the whole loop; on completion the
final arrays are the planner's output. -/
def plan {α U : Type} [CommRing α] (cfg : PlanCfg α U) :
    Except PlanError (PlanState α) :=
  planLoop cfg cfg.Nsim

/-- The effect of a call to `plan` on the planner's stored result
attributes `self.xs`, `self.zs`, `self.Hs`, `self.PoI` (lines
170–174): they are reassigned only when the loop runs to completion;
a raise leaves them untouched. -/
def planResultAttrs {α U : Type} [CommRing α] (cfg : PlanCfg α U)
    (old : PlanState α) : PlanState α :=
  match plan cfg with
  | .ok r => r
  | .error _ => old

/-- `Except.isOk` (spelled out locally). -/
def exceptIsOk {ε β : Type} : Except ε β → Bool
  | .ok _ => true
  | .error _ => false

/-- Shape predicate: a column-stored array has `n` columns of `rows`
entries each. -/
def colsOK {α : Type} (m : List (List α)) (n rows : Nat) : Prop :=
  m.length = n ∧ ∀ c ∈ m, c.length = rows

/-- Shape predicate for the fixed `np.zeros((2, 2))` nominal-cost
grids. -/
def shape2x2 {α : Type} (m : List (List α)) : Prop :=
  m.length = 2 ∧ ∀ r ∈ m, r.length = 2

/-- The §4.3 step-7 shape invariant of the four result arrays: xs and
zs have exactly N_sim + 1 columns of nx resp. nz entries, Hs has
exactly N_sim slices of shape (nz1+nz2) × (nz1+nz2), PoI has exactly
N_sim columns of 2 entries. -/
def PlanInv {α U : Type} [CommRing α] (cfg : PlanCfg α U)
    (s : PlanState α) : Prop :=
  colsOK s.xs (cfg.Nsim + 1) cfg.x0.length ∧
  colsOK s.zs (cfg.Nsim + 1) cfg.z0.length ∧
  s.Hs.length = cfg.Nsim ∧
  (∀ H ∈ s.Hs, H.length = cfg.nz1 + cfg.nz2 ∧
    ∀ row ∈ H, row.length = cfg.nz1 + cfg.nz2) ∧
  colsOK s.PoI cfg.Nsim 2

/-! ### Concrete instances used by the witness theorems -/

/-- A concrete cost object over ℤ (horizon 3). -/
def costW : Cost ℤ :=
  ⟨fun xc uc k => xc 0 + uc 0 * (k : ℤ), 3, 1, 1⟩

/-- A concrete cost object over ℤ (horizon 2). -/
def costW2 : Cost ℤ :=
  ⟨fun xc uc _ => 2 * xc 0 + uc 1, 2, 2, 2⟩

/-- Another concrete cost object over ℤ (horizon 2). -/
def costW3 : Cost ℤ :=
  ⟨fun xc _ k => xc 1 + (k : ℤ), 2, 2, 2⟩

/-- A concrete state trajectory over ℤ. -/
def xMatW : Nat → Nat → ℤ := fun i k => (i : ℤ) + 2 * (k : ℤ)

/-- A concrete control trajectory over ℤ. -/
def uMatW : Nat → Nat → ℤ := fun i k => (i : ℤ) * (k : ℤ) + 1

/-- A `PlayerCost` with two registered terms of shared horizon 2 and
distinct weights. -/
def pcW : PlayerCost ℤ := ⟨[costW2, costW3], [none, some 0], [2, 3]⟩

/-- A stub subgame solver. -/
def subW : Nat → Nat → List ℤ → SubRes ℤ :=
  fun l1 l2 xk => ⟨xk, [], [], [], [], (l1 : ℤ), (l2 : ℤ)⟩

/-- A stub opinion-dynamics model returning the constant derivative 1
and a 2×2 zero Hessian. -/
def ginodW : List ℤ → Bundle ℤ → GinodOut ℤ :=
  fun _ _ => ⟨List.replicate 4 1, List.replicate 2 (List.replicate 2 0), 5, 7⟩

/-- A concrete planner configuration over ℤ with stub collaborators
(`N_sim = 2`, one opinion mode per player, `nz = 1 + 1 + 2 = 4`). -/
def cfgW : PlanCfg ℤ Unit :=
  { Nsim := 2
  , method := "QMDPL1"
  , nz1 := 1
  , nz2 := 1
  , T := 2
  , x0 := [3, 4]
  , z0 := [9, 8, 7, 6]
  , subgame := subW
  , ginod := ginodW
  , qmdpL0P1 := fun _ _ _ => ()
  , qmdpL0P2 := fun _ _ _ => ()
  , qmdpL1P1 := fun _ _ _ _ _ _ => ()
  , qmdpL1P2 := fun _ _ _ _ _ _ => ()
  , phSys := fun _ _ _ => [7, 8] }

/-- The configuration of the C8 counterexample: an unrecognized method
string together with `N_sim = 0`. -/
def cfgW0 : PlanCfg ℤ Unit := { cfgW with Nsim := 0, method := "FOO" }

/-- A configuration with an unrecognized method string and
`N_sim = 1`. -/
def cfgWBad : PlanCfg ℤ Unit := { cfgW with method := "FOO" }

/-- A stand-in for the planner's pre-`plan` attribute record. -/
def emptyAttrsW : PlanState ℤ := ⟨[], [], [], []⟩

noncomputable section

/-- A concrete box constraint: control index 0, bounds [0, 1], q1 = 1,
q2 = 5. -/
def boxCW : BoxInputConstraintCost := ⟨0, 0, 1, 1, 5⟩

/-- A control vector sitting exactly at the upper bound of `boxCW`. -/
def uiBoxW : Nat → ℝ := fun _ => 1

/-- A control vector well beyond the upper bound of `boxCW`. -/
def uiBox2W : Nat → ℝ := fun _ => 2

/-- The zero state vector over ℝ. -/
def xZeroW : Nat → ℝ := fun _ => 0

end

/-! ## Part 2 — theorems -/

/-! ### List helpers -/

theorem getD_set_self {α : Type} (l : List α) (i : Nat) (v d : α)
    (h : i < l.length) : (l.set i v).getD i d = v := by
  induction l generalizing i with
  | nil => simp at h
  | cons a as ih =>
    cases i with
    | zero => rfl
    | succ n =>
      simp only [List.set, List.getD, List.get?]
      exact ih n (by simpa using h)

theorem getD_set_ne {α : Type} (l : List α) (i j : Nat) (v d : α)
    (h : i ≠ j) : (l.set i v).getD j d = l.getD j d := by
  induction l generalizing i j with
  | nil => simp [List.set]
  | cons a as ih =>
    cases i with
    | zero =>
      cases j with
      | zero => exact absurd rfl h
      | succ m => rfl
    | succ n =>
      cases j with
      | zero => rfl
      | succ m =>
        simp only [List.set, List.getD, List.get?]
        exact ih n m (by intro hnm; exact h (by rw [hnm]))

theorem getD_map {α β : Type} (f : α → β) (l : List α) (j : Nat) (d : α)
    (h : j < l.length) : (l.map f).getD j (f d) = f (l.getD j d) := by
  induction l generalizing j with
  | nil => simp at h
  | cons a as ih =>
    cases j with
    | zero => rfl
    | succ n =>
      simp only [List.map, List.getD, List.get?]
      exact ih n (by simpa using h)

theorem getD_of_lt {α : Type} (l : List α) (j : Nat) (d d2 : α)
    (h : j < l.length) : l.getD j d = l.getD j d2 := by
  induction l generalizing j with
  | nil => simp at h
  | cons a as ih =>
    cases j with
    | zero => rfl
    | succ n =>
      simp only [List.getD, List.get?]
      exact ih n (by simpa using h)

theorem getD_zipWith {α : Type} (f : α → α → α) (l m : List α) (j : Nat) (d : α)
    (hl : j < l.length) (hm : j < m.length) :
    (List.zipWith f l m).getD j d = f (l.getD j d) (m.getD j d) := by
  induction l generalizing m j with
  | nil => simp at hl
  | cons a as ih =>
    cases m with
    | nil => simp at hm
    | cons b bs =>
      cases j with
      | zero => rfl
      | succ n =>
        simp only [List.zipWith, List.getD, List.get?]
        exact ih bs n (by simpa using hl) (by simpa using hm)

theorem getD_mem {α : Type} (l : List α) (j : Nat) (d : α)
    (h : j < l.length) : l.getD j d ∈ l := by
  induction l generalizing j with
  | nil => simp at h
  | cons a as ih =>
    cases j with
    | zero => simp [List.getD]
    | succ n =>
      simp only [List.getD, List.get?]
      exact List.mem_cons_of_mem a (ih n (by simpa using h))

theorem mem_of_mem_set {α : Type} (l : List α) (i : Nat) (v a : α)
    (h : a ∈ l.set i v) : a ∈ l ∨ a = v := by
  induction l generalizing i with
  | nil => simp [List.set] at h
  | cons b bs ih =>
    cases i with
    | zero =>
      rcases List.mem_cons.mp h with h1 | h1
      · exact Or.inr h1
      · exact Or.inl (List.mem_cons_of_mem b h1)
    | succ n =>
      rcases List.mem_cons.mp h with h1 | h1
      · exact Or.inl (by simp [h1])
      · rcases ih n h1 with h2 | h2
        · exact Or.inl (List.mem_cons_of_mem b h2)
        · exact Or.inr h2

/-! ### C1/C2 machinery: `get_traj_cost` as a pointwise evaluation -/

theorem foldl_set_length {α : Type} (g : Nat → α) (ks : List Nat)
    (init : List α) :
    (ks.foldl (fun costs k => costs.set k (g k)) init).length = init.length := by
  induction ks generalizing init with
  | nil => rfl
  | cons k ks ih => simp [List.foldl, ih, List.length_set]

theorem foldl_set_getD {α : Type} (g : Nat → α) (n : Nat)
    (init : List α) (d : α) :
    ∀ j, j < n → j < init.length →
      (((List.range n).foldl (fun costs k => costs.set k (g k)) init).getD j d) = g j := by
  induction n with
  | zero => intro j h; simp at h
  | succ m ih =>
    intro j hj hlen
    rw [List.range_succ, List.foldl_append]
    simp only [List.foldl]
    rcases Nat.lt_or_ge j m with hlt | hge
    · rw [getD_set_ne _ _ _ _ _ (by omega)]
      exact ih j hlt hlen
    · have hjm : j = m := by omega
      subst hjm
      rw [getD_set_self]
      rw [foldl_set_length]
      exact hlen

theorem get_traj_cost_length {α : Type} [CommRing α] (c : Cost α)
    (x ui : Nat → Nat → α) :
    (c.get_traj_cost x ui).length = c.horizon := by
  unfold Cost.get_traj_cost
  rw [foldl_set_length, List.length_replicate]

theorem get_traj_cost_getD {α : Type} [CommRing α] (c : Cost α)
    (x ui : Nat → Nat → α) (k : Nat) (hk : k < c.horizon) :
    (c.get_traj_cost x ui).getD k 0 = c.get_cost (col x k) (col ui k) k := by
  unfold Cost.get_traj_cost
  exact foldl_set_getD _ _ _ _ k hk (by simpa using hk)

theorem playerCost_foldl_arr {α : Type} [CommRing α]
    (x ui : Nat → Nat → α) (N : Nat) :
    ∀ (cws : List (Cost α × α)) (a : List α),
      (∀ p ∈ cws, p.1.horizon = N) → a.length = N →
      ∃ l : List α,
        cws.foldl
          (fun total cw =>
            npAdd total (NpVal.arr ((cw.1.get_traj_cost x ui).map (fun v => cw.2 * v))))
          (NpVal.arr a) = NpVal.arr l ∧
        l.length = N ∧
        ∀ j, j < N →
          l.getD j 0 = a.getD j 0 +
            (cws.map (fun cw => cw.2 * ((cw.1.get_traj_cost x ui).getD j 0))).sum := by
  intro cws
  induction cws with
  | nil =>
    intro a _ ha
    exact ⟨a, rfl, ha, fun j _ => by simp⟩
  | cons cw cws ih =>
    intro a hhor ha
    have htl : (cw.1.get_traj_cost x ui).length = N := by
      rw [get_traj_cost_length]; exact hhor cw (by simp)
    have hstep : npAdd (NpVal.arr a)
        (NpVal.arr ((cw.1.get_traj_cost x ui).map (fun v => cw.2 * v))) =
        NpVal.arr (List.zipWith (fun v w => v + w) a
          ((cw.1.get_traj_cost x ui).map (fun v => cw.2 * v))) := rfl
    have hlen2 : (List.zipWith (fun v w => v + w) a
        ((cw.1.get_traj_cost x ui).map (fun v => cw.2 * v))).length = N := by
      rw [List.length_zipWith, List.length_map, htl, ha, Nat.min_self]
    obtain ⟨l, hfold, hlen, hentries⟩ :=
      ih (List.zipWith (fun v w => v + w) a
        ((cw.1.get_traj_cost x ui).map (fun v => cw.2 * v)))
        (fun p hp => hhor p (by simp [hp])) hlen2
    refine ⟨l, ?_, hlen, ?_⟩
    · simpa [List.foldl, hstep] using hfold
    · intro j hj
      rw [hentries j hj]
      have hmap : ((cw.1.get_traj_cost x ui).map (fun v => cw.2 * v)).getD j (cw.2 * 0) =
          cw.2 * ((cw.1.get_traj_cost x ui).getD j 0) :=
        getD_map _ _ _ _ (by rw [htl]; exact hj)
      rw [getD_zipWith _ _ _ _ _ (by rw [ha]; exact hj)
        (by rw [List.length_map, htl]; exact hj)]
      have : ((cw.1.get_traj_cost x ui).map (fun v => cw.2 * v)).getD j 0 =
          cw.2 * ((cw.1.get_traj_cost x ui).getD j 0) := by
        rw [← hmap]; norm_num
      rw [this]
      simp [List.map, List.sum_cons]
      ring

/-- C2: for every Cost variant with horizon N, `get_traj_cost(x, u)`
has length N and its k-th entry equals `get_cost(x[:, k], u[:, k], k)`
for every 0 ≤ k < N; the evaluation is a pure function of (x, u) (a
fold carrying only the result buffer, by construction of the
embedding). -/
theorem claim_C2_get_traj_cost_pointwise {α : Type} [CommRing α]
    (c : Cost α) (x ui : Nat → Nat → α) :
    (c.get_traj_cost x ui).length = c.horizon ∧
    ∀ k, k < c.horizon →
      (c.get_traj_cost x ui).getD k 0 = c.get_cost (col x k) (col ui k) k :=
  ⟨get_traj_cost_length c x ui, fun k hk => get_traj_cost_getD c x ui k hk⟩

/-- Witness for C2 at a concrete cost object (horizon 3) and concrete
trajectories, at timestep k = 1. -/
theorem claim_C2_witness :
    (costW.get_traj_cost xMatW uMatW).length = costW.horizon ∧
    1 < costW.horizon ∧
    (costW.get_traj_cost xMatW uMatW).getD 1 0 =
      costW.get_cost (col xMatW 1) (col uMatW 1) 1 :=
  ⟨(claim_C2_get_traj_cost_pointwise costW xMatW uMatW).1,
   by decide,
   (claim_C2_get_traj_cost_pointwise costW xMatW uMatW).2 1 (by decide)⟩

/-- C1: `PlayerCost.get_cost(x, u, k)` on registered terms of shared
horizon N is the weighted sum over all registered terms of
`get_traj_cost(x, u)` — an array with one value per timestep of the
shared horizon, not a single-timestep scalar — and the result does not
depend on k. -/
theorem claim_C1_playerCost_full_horizon_sum {α : Type} [CommRing α]
    (pc : PlayerCost α) (x ui : Nat → Nat → α) (k N : Nat)
    (hne : 0 < (pc.costs.zip pc.weights).length)
    (hhor : ∀ p ∈ pc.costs.zip pc.weights, p.1.horizon = N) :
    pc.get_cost x ui k = pc.get_cost x ui 0 ∧
    ∃ l : List α, pc.get_cost x ui k = NpVal.arr l ∧ l.length = N ∧
      ∀ j, j < N → l.getD j 0 =
        ((pc.costs.zip pc.weights).map
          (fun cw => cw.2 * ((cw.1.get_traj_cost x ui).getD j 0))).sum := by
  refine ⟨rfl, ?_⟩
  unfold PlayerCost.get_cost
  obtain ⟨cw, cws, hzip⟩ : ∃ cw cws, pc.costs.zip pc.weights = cw :: cws := by
    cases h : pc.costs.zip pc.weights with
    | nil => rw [h] at hne; simp at hne
    | cons a l => exact ⟨a, l, rfl⟩
  rw [hzip] at hhor ⊢
  have htl : (cw.1.get_traj_cost x ui).length = N := by
    rw [get_traj_cost_length]; exact hhor cw (by simp)
  simp only [List.foldl]
  have hstep : npAdd (NpVal.scalar 0)
      (NpVal.arr ((cw.1.get_traj_cost x ui).map (fun v => cw.2 * v))) =
      NpVal.arr (((cw.1.get_traj_cost x ui).map (fun v => cw.2 * v)).map
        (fun v => (0 : α) + v)) := rfl
  rw [hstep]
  obtain ⟨l, hfold, hlen, hent⟩ :=
    playerCost_foldl_arr x ui N cws
      (((cw.1.get_traj_cost x ui).map (fun v => cw.2 * v)).map (fun v => (0 : α) + v))
      (fun p hp => hhor p (by simp [hp]))
      (by rw [List.length_map, List.length_map, htl])
  refine ⟨l, hfold, hlen, ?_⟩
  intro j hj
  rw [hent j hj]
  have hl1 : j < ((cw.1.get_traj_cost x ui).map (fun v => cw.2 * v)).length := by
    rw [List.length_map, htl]; exact hj
  have h2 : (((cw.1.get_traj_cost x ui).map (fun v => cw.2 * v)).map
      (fun v => (0 : α) + v)).getD j ((0 : α) + cw.2 * 0) =
      (0 : α) + ((cw.1.get_traj_cost x ui).map (fun v => cw.2 * v)).getD j (cw.2 * 0) :=
    getD_map _ _ _ _ hl1
  have h3 : ((cw.1.get_traj_cost x ui).map (fun v => cw.2 * v)).getD j (cw.2 * 0) =
      cw.2 * ((cw.1.get_traj_cost x ui).getD j 0) :=
    getD_map _ _ _ _ (by rw [htl]; exact hj)
  have h4 : (((cw.1.get_traj_cost x ui).map (fun v => cw.2 * v)).map
      (fun v => (0 : α) + v)).getD j 0 =
      (((cw.1.get_traj_cost x ui).map (fun v => cw.2 * v)).map
        (fun v => (0 : α) + v)).getD j ((0 : α) + cw.2 * 0) :=
    getD_of_lt _ _ _ _ (by rw [List.length_map]; exact hl1)
  rw [h4, h2, h3, List.map_cons, List.sum_cons]
  ring

/-- Witness for C1 at a two-term `PlayerCost` over ℤ with weights 2
and 3 and shared horizon 2. -/
theorem claim_C1_witness :
    0 < (pcW.costs.zip pcW.weights).length ∧
    (∀ p ∈ pcW.costs.zip pcW.weights, p.1.horizon = 2) ∧
    pcW.get_cost xMatW uMatW 5 = pcW.get_cost xMatW uMatW 0 :=
  ⟨by decide, by decide,
   (claim_C1_playerCost_full_horizon_sum pcW xMatW uMatW 5 2
     (by decide) (by decide)).1⟩

/-! ### C3 machinery: partial derivatives of the quadratic cost -/

theorem deriv_sq_sub (o t : ℝ) :
    deriv (fun s : ℝ => (s - o) ^ 2) t = 2 * (t - o) := by
  simp

theorem deriv_two_mul_sub (o t : ℝ) :
    deriv (fun s : ℝ => 2 * (s - o)) t = 2 := by
  simp

theorem quad_gradX (d : Nat) (o : ℝ) (x ui : Nat → ℝ) (k i : Nat) :
    gradX (QuadraticCost.mk d o true).get_cost x ui k i =
      if i = d then 2 * (x d - o) else 0 := by
  have hfun : ∀ t, (QuadraticCost.mk d o true).get_cost (Function.update x i t) ui k =
      ((Function.update x i t) d - o) ^ 2 := by
    intro t; simp [QuadraticCost.get_cost]
  unfold gradX
  by_cases hid : i = d
  · subst hid
    rw [if_pos rfl]
    calc deriv (fun t => (QuadraticCost.mk i o true).get_cost (Function.update x i t) ui k) (x i)
        = deriv (fun t : ℝ => (t - o) ^ 2) (x i) := by
          congr 1; funext t; rw [hfun t, Function.update_same]
      _ = 2 * (x i - o) := deriv_sq_sub o (x i)
  · rw [if_neg hid]
    have heq : (fun t => (QuadraticCost.mk d o true).get_cost (Function.update x i t) ui k) =
        fun _ => (x d - o) ^ 2 := by
      funext t; rw [hfun t, Function.update_noteq (Ne.symm hid)]
    rw [heq, deriv_const]

theorem quad_gradU (d : Nat) (o : ℝ) (x ui : Nat → ℝ) (k i : Nat) :
    gradU (QuadraticCost.mk d o true).get_cost x ui k i = 0 := by
  unfold gradU
  have heq : (fun t => (QuadraticCost.mk d o true).get_cost x (Function.update ui i t) k) =
      fun _ => (x d - o) ^ 2 := by
    funext t; simp [QuadraticCost.get_cost]
  rw [heq, deriv_const]

theorem quad_hessXX (d : Nat) (o : ℝ) (x ui : Nat → ℝ) (k i j : Nat) :
    hessXX (QuadraticCost.mk d o true).get_cost x ui k i j =
      if i = d ∧ j = d then 2 else 0 := by
  unfold hessXX
  have hg : ∀ s, gradX (QuadraticCost.mk d o true).get_cost (Function.update x j s) ui k i =
      if i = d then 2 * ((Function.update x j s) d - o) else 0 := fun s =>
    quad_gradX d o (Function.update x j s) ui k i
  by_cases hid : i = d
  · by_cases hjd : j = d
    · rw [if_pos ⟨hid, hjd⟩]
      have heq : (fun s => gradX (QuadraticCost.mk d o true).get_cost
          (Function.update x j s) ui k i) = fun s : ℝ => 2 * (s - o) := by
        funext s
        rw [hg s, if_pos hid, hjd, Function.update_same]
      rw [heq, deriv_two_mul_sub]
    · rw [if_neg (fun h => hjd h.2)]
      have heq : (fun s => gradX (QuadraticCost.mk d o true).get_cost
          (Function.update x j s) ui k i) = fun _ => 2 * (x d - o) := by
        funext s
        rw [hg s, if_pos hid, Function.update_noteq (fun h => hjd h.symm)]
      rw [heq, deriv_const]
  · rw [if_neg (fun h => hid h.1)]
    have heq : (fun s => gradX (QuadraticCost.mk d o true).get_cost
        (Function.update x j s) ui k i) = fun _ => (0 : ℝ) := by
      funext s; rw [hg s, if_neg hid]
    rw [heq, deriv_const]

theorem quad_hessUU (d : Nat) (o : ℝ) (x ui : Nat → ℝ) (k i j : Nat) :
    hessUU (QuadraticCost.mk d o true).get_cost x ui k i j = 0 := by
  unfold hessUU
  have heq : (fun s => gradU (QuadraticCost.mk d o true).get_cost x
      (Function.update ui j s) k i) = fun _ => (0 : ℝ) := by
    funext s; rw [quad_gradU]
  rw [heq, deriv_const]

/-- C3: for every `QuadraticCost` on dimension d with origin o and
`is_x = true`, and every state x and control u: `get_grad(x, u, k)`
is the state gradient `2*(x[d]-o)` at index d and zero elsewhere with
a zero control gradient, and `get_hess(x, u, k)` is the state Hessian
with 2 at [d, d] and zero elsewhere with a zero control Hessian. -/
theorem claim_C3_quadraticCost_grad_hess (d : Nat) (o : ℝ)
    (x ui : Nat → ℝ) (k : Nat) :
    (get_grad (QuadraticCost.mk d o true).get_cost x ui k).1 =
      (fun i => if i = d then 2 * (x d - o) else 0) ∧
    (get_grad (QuadraticCost.mk d o true).get_cost x ui k).2 = (fun _ => 0) ∧
    (get_hess (QuadraticCost.mk d o true).get_cost x ui k).1 =
      (fun i j => if i = d ∧ j = d then 2 else 0) ∧
    (get_hess (QuadraticCost.mk d o true).get_cost x ui k).2 = (fun _ _ => 0) :=
  ⟨funext fun i => quad_gradX d o x ui k i,
   funext fun i => quad_gradU d o x ui k i,
   funext fun i => funext fun j => quad_hessXX d o x ui k i j,
   funext fun i => funext fun j => quad_hessUU d o x ui k i j⟩

/-! ### C9: the box input constraint cost -/

theorem box_get_cost_formula (c : BoxInputConstraintCost)
    (x ui : Nat → ℝ) (k : Nat) :
    c.get_cost x ui k =
      c.q1 * (Real.exp (c.q2 * (ui c.u_index - c.control_max)) - 1) +
      c.q1 * (Real.exp (c.q2 * (c.control_min - ui c.u_index)) - 1) := by
  simp only [BoxInputConstraintCost.get_cost]
  ring

/-- C9 counterexample: for the box cost with bounds [0, 1], q1 = 1,
q2 = 5, at `u[0] = 1 = control_max` (so `u[i] ≥ control_max`, where
the claim asserts a positive value) the returned value is negative:
`1*(exp(0) - 1) + 1*(exp(-5) - 1) = exp(-5) - 1 < 0`. -/
theorem claim_C9_counterexample :
    boxCW.control_max ≤ uiBoxW boxCW.u_index ∧
    boxCW.get_cost xZeroW uiBoxW 0 < 0 := by
  constructor
  · simp [boxCW, uiBoxW]
  · rw [box_get_cost_formula]
    simp only [boxCW, uiBoxW]
    norm_num

/-- C9 (amended): `BoxInputConstraintCost.get_cost` returns
`q1*(exp(q2*(u[i]-control_max))-1) + q1*(exp(q2*(control_min-u[i]))-1)`
for the configured control index i; given q1 > 0 and q2 > 0 the value
is positive whenever `u[i]` exceeds `control_max` by at least
`ln 2 / q2` or lies below `control_min` by at least `ln 2 / q2` (not
already at the bounds, where the opposite barrier's −q1·(1−exp(…))
offset still dominates), and it diverges to +∞ as `u[i] → ±∞`. -/
theorem claim_C9_box_cost_amended (c : BoxInputConstraintCost)
    (x ui : Nat → ℝ) (k : Nat) (hq1 : 0 < c.q1) (hq2 : 0 < c.q2) :
    c.get_cost x ui k =
      c.q1 * (Real.exp (c.q2 * (ui c.u_index - c.control_max)) - 1) +
      c.q1 * (Real.exp (c.q2 * (c.control_min - ui c.u_index)) - 1) ∧
    ((c.control_max + Real.log 2 / c.q2 ≤ ui c.u_index ∨
      ui c.u_index ≤ c.control_min - Real.log 2 / c.q2) →
      0 < c.get_cost x ui k) ∧
    Filter.Tendsto (fun t => c.get_cost x (Function.update ui c.u_index t) k)
      Filter.atTop Filter.atTop ∧
    Filter.Tendsto (fun t => c.get_cost x (Function.update ui c.u_index t) k)
      Filter.atBot Filter.atTop := by
  have hfun : (fun t => c.get_cost x (Function.update ui c.u_index t) k) =
      fun t => c.q1 * (Real.exp (c.q2 * (c.control_min - t)) - 1) +
        c.q1 * (Real.exp (c.q2 * (t - c.control_max)) - 1) := by
    funext t
    simp only [BoxInputConstraintCost.get_cost, Function.update_same]
  refine ⟨box_get_cost_formula c x ui k, ?_, ?_, ?_⟩
  · intro hside
    rw [box_get_cost_formula]
    have hBpos := Real.exp_pos (c.q2 * (c.control_min - ui c.u_index))
    have hApos := Real.exp_pos (c.q2 * (ui c.u_index - c.control_max))
    rcases hside with h | h
    · have hlog : Real.log 2 ≤ c.q2 * (ui c.u_index - c.control_max) := by
        have h2 : Real.log 2 / c.q2 ≤ ui c.u_index - c.control_max := by linarith
        calc Real.log 2 = (Real.log 2 / c.q2) * c.q2 := by field_simp
          _ ≤ (ui c.u_index - c.control_max) * c.q2 :=
              mul_le_mul_of_nonneg_right h2 (le_of_lt hq2)
          _ = c.q2 * (ui c.u_index - c.control_max) := by ring
      have hA : (2 : ℝ) ≤ Real.exp (c.q2 * (ui c.u_index - c.control_max)) := by
        calc (2 : ℝ) = Real.exp (Real.log 2) := (Real.exp_log (by norm_num)).symm
          _ ≤ _ := Real.exp_le_exp.mpr hlog
      nlinarith
    · have hlog : Real.log 2 ≤ c.q2 * (c.control_min - ui c.u_index) := by
        have h2 : Real.log 2 / c.q2 ≤ c.control_min - ui c.u_index := by linarith
        calc Real.log 2 = (Real.log 2 / c.q2) * c.q2 := by field_simp
          _ ≤ (c.control_min - ui c.u_index) * c.q2 :=
              mul_le_mul_of_nonneg_right h2 (le_of_lt hq2)
          _ = c.q2 * (c.control_min - ui c.u_index) := by ring
      have hB : (2 : ℝ) ≤ Real.exp (c.q2 * (c.control_min - ui c.u_index)) := by
        calc (2 : ℝ) = Real.exp (Real.log 2) := (Real.exp_log (by norm_num)).symm
          _ ≤ _ := Real.exp_le_exp.mpr hlog
      nlinarith
  · rw [hfun]
    have hsub : Filter.Tendsto (fun t : ℝ => t - c.control_max)
        Filter.atTop Filter.atTop := by
      simpa [sub_eq_add_neg] using
        Filter.tendsto_atTop_add_const_right Filter.atTop (-c.control_max) Filter.tendsto_id
    have h1 := Filter.Tendsto.const_mul_atTop hq2 hsub
    have h2 := Real.tendsto_exp_atTop.comp h1
    have h3 : Filter.Tendsto
        (fun t : ℝ => Real.exp (c.q2 * (t - c.control_max)) - 1)
        Filter.atTop Filter.atTop := by
      simpa [sub_eq_add_neg] using
        Filter.tendsto_atTop_add_const_right Filter.atTop (-1 : ℝ) h2
    have h4 := Filter.Tendsto.const_mul_atTop hq1 h3
    have hsub2 : Filter.Tendsto (fun t : ℝ => c.control_min - t)
        Filter.atTop Filter.atBot := by
      simpa [sub_eq_add_neg] using
        Filter.tendsto_atBot_add_const_left Filter.atTop c.control_min
          Filter.tendsto_neg_atTop_atBot
    have h6 := Filter.Tendsto.const_mul_atBot hq2 hsub2
    have h7 := Real.tendsto_exp_atBot.comp h6
    have h8 := (h7.sub_const 1).const_mul c.q1
    exact Filter.Tendsto.add_atTop h8 h4
  · rw [hfun]
    have hsub : Filter.Tendsto (fun t : ℝ => c.control_min - t)
        Filter.atBot Filter.atTop := by
      simpa [sub_eq_add_neg] using
        Filter.tendsto_atTop_add_const_left Filter.atBot c.control_min
          Filter.tendsto_neg_atBot_atTop
    have h1 := Filter.Tendsto.const_mul_atTop hq2 hsub
    have h2 := Real.tendsto_exp_atTop.comp h1
    have h3 : Filter.Tendsto
        (fun t : ℝ => Real.exp (c.q2 * (c.control_min - t)) - 1)
        Filter.atBot Filter.atTop := by
      simpa [sub_eq_add_neg] using
        Filter.tendsto_atTop_add_const_right Filter.atBot (-1 : ℝ) h2
    have h4 := Filter.Tendsto.const_mul_atTop hq1 h3
    have hsub2 : Filter.Tendsto (fun t : ℝ => t - c.control_max)
        Filter.atBot Filter.atBot := by
      simpa [sub_eq_add_neg] using
        Filter.tendsto_atBot_add_const_right Filter.atBot (-c.control_max)
          Filter.tendsto_id
    have h6 := Filter.Tendsto.const_mul_atBot hq2 hsub2
    have h7 := Real.tendsto_exp_atBot.comp h6
    have h8 := (h7.sub_const 1).const_mul c.q1
    exact Filter.Tendsto.atTop_add h4 h8

/-- Witness for the amended C9 at the concrete box cost with
q1 = 1 > 0, q2 = 5 > 0 and `u[0] = 2 ≥ control_max + ln 2 / q2`. -/
theorem claim_C9_witness :
    0 < boxCW.q1 ∧ 0 < boxCW.q2 ∧ 0 < boxCW.get_cost xZeroW uiBox2W 0 := by
  refine ⟨by norm_num [boxCW], by norm_num [boxCW], ?_⟩
  refine (claim_C9_box_cost_amended boxCW xZeroW uiBox2W 0
      (by norm_num [boxCW]) (by norm_num [boxCW])).2.1 (Or.inl ?_)
  simp only [boxCW, uiBox2W]
  have h52 : Real.log 2 / 5 ≤ 1 := by
    rw [div_le_one (by norm_num : (0 : ℝ) < 5)]
    linarith [Real.log_two_lt_d9]
  linarith

/-! ### C10: the two-player product-state proximity cost -/

/-- C10: for every state x — including coincident player positions —
`ProductStateProximityCostTwoPlayer.get_cost` is the sum over both
players of `min(exp(min(0, rel_dist - max_distance)^2), 1e5)`; each
pairwise term is hard-capped at 1e5, so the total is finite (at most
2·1e5).  The embedding is a total function: there is no raising branch
(zero relative distance just makes `rel_dist = 0`). -/
theorem claim_C10_product_proximity_capped
    (c : ProductStateProximityCostTwoPlayer) (x ui : Nat → ℝ) (k : Nat) :
    c.get_cost x ui k =
      min (Real.exp ((min 0 (Real.sqrt ((x c.idx1.1 - x c.idx2.1) ^ 2 +
          (x c.idx1.2 - x c.idx2.2) ^ 2) - c.max_distance)) ^ 2)) 100000 +
      min (Real.exp ((min 0 (Real.sqrt ((x c.idx2.1 - x c.idx1.1) ^ 2 +
          (x c.idx2.2 - x c.idx1.2) ^ 2) - c.max_distance)) ^ 2)) 100000 ∧
    c.get_cost x ui k ≤ 2 * 100000 := by
  constructor
  · simp only [ProductStateProximityCostTwoPlayer.get_cost,
      proximityMaxExpBound, zero_add]
    rw [min_comm (Real.sqrt ((x c.idx1.1 - x c.idx2.1) ^ 2 +
        (x c.idx1.2 - x c.idx2.2) ^ 2) - c.max_distance) 0,
      min_comm (Real.sqrt ((x c.idx2.1 - x c.idx1.1) ^ 2 +
        (x c.idx2.2 - x c.idx1.2) ^ 2) - c.max_distance) 0]
  · simp only [ProductStateProximityCostTwoPlayer.get_cost,
      proximityMaxExpBound, zero_add]
    have h1 := min_le_right
      (Real.exp ((min (Real.sqrt ((x c.idx1.1 - x c.idx2.1) ^ 2 +
        (x c.idx1.2 - x c.idx2.2) ^ 2) - c.max_distance) 0) ^ 2)) (100000 : ℝ)
    have h2 := min_le_right
      (Real.exp ((min (Real.sqrt ((x c.idx2.1 - x c.idx1.1) ^ 2 +
        (x c.idx2.2 - x c.idx1.2) ^ 2) - c.max_distance) 0) ^ 2)) (100000 : ℝ)
    linarith

/-! ### RHCPlanner machinery: the subgame bundle -/

theorem modePairs_mem (nz1 nz2 : Nat) (p : Nat × Nat)
    (h : p ∈ modePairs nz1 nz2) : p.1 < nz1 ∧ p.2 < nz2 := by
  unfold modePairs at h
  rcases List.mem_flatMap.mp h with ⟨l1, hl1, hp⟩
  rcases List.mem_map.mp hp with ⟨l2, hl2, rfl⟩
  exact ⟨List.mem_range.mp hl1, List.mem_range.mp hl2⟩

theorem set2D_ok {α : Type} (m : List (List α)) (i j : Nat) (v : α)
    (hm : shape2x2 m) (hi : i < 2) (hj : j < 2) :
    ∃ m2, set2D m i j v = some m2 ∧ shape2x2 m2 := by
  obtain ⟨hlen, hrows⟩ := hm
  have hi2 : i < m.length := by omega
  obtain ⟨row, hrow⟩ : ∃ row, m.get? i = some row :=
    ⟨m.get ⟨i, hi2⟩, List.get?_eq_get hi2⟩
  have hrl : row.length = 2 := hrows _ (List.get?_mem hrow)
  refine ⟨m.set i (row.set j v), ?_, ?_, ?_⟩
  · unfold set2D
    rw [hrow]
    show (setChecked row j v).bind (fun row2 => setChecked m i row2) =
      some (m.set i (row.set j v))
    unfold setChecked
    rw [if_pos (by omega : j < row.length)]
    show (if i < m.length then some (m.set i (row.set j v)) else none) =
      some (m.set i (row.set j v))
    rw [if_pos hi2]
  · rw [List.length_set]; exact hlen
  · intro r hr
    rcases mem_of_mem_set _ _ _ _ hr with h1 | h1
    · exact hrows r h1
    · rw [h1, List.length_set]; exact hrl

theorem bundleFold_ok {α : Type} (sub : Nat → Nat → SubRes α) :
    ∀ (ps : List (Nat × Nat)) (g : BundleGrids α),
      (∀ p ∈ ps, p.1 < 2 ∧ p.2 < 2) →
      shape2x2 g.nomCost1 → shape2x2 g.nomCost2 →
      ∃ g2, ps.foldlM (bundleStep sub) g = some g2 := by
  intro ps
  induction ps with
  | nil => intro g _ _ _; exact ⟨g, rfl⟩
  | cons p ps ih =>
    intro g hb h1 h2
    obtain ⟨hp1, hp2⟩ := hb p (by simp)
    obtain ⟨n1, hn1, hn1s⟩ := set2D_ok g.nomCost1 p.1 p.2 (sub p.1 p.2).nomCost1 h1 hp1 hp2
    obtain ⟨n2, hn2, hn2s⟩ := set2D_ok g.nomCost2 p.1 p.2 (sub p.1 p.2).nomCost2 h2 hp1 hp2
    have hstep : bundleStep sub g p = some
        { Z1 := upd2 g.Z1 p.1 p.2 (sub p.1 p.2).Z1
        , Z2 := upd2 g.Z2 p.1 p.2 (sub p.1 p.2).Z2
        , zeta1 := upd2 g.zeta1 p.1 p.2 (sub p.1 p.2).zeta1
        , zeta2 := upd2 g.zeta2 p.1 p.2 (sub p.1 p.2).zeta2
        , xnom := upd2 g.xnom p.1 p.2 (sub p.1 p.2).xnomCol
        , nomCost1 := n1
        , nomCost2 := n2 } := by
      unfold bundleStep
      rw [hn1]
      show (set2D g.nomCost2 p.1 p.2 (sub p.1 p.2).nomCost2).bind _ = _
      rw [hn2]
      rfl
    rw [List.foldlM_cons, hstep]
    obtain ⟨g2, hg2⟩ := ih
      { Z1 := upd2 g.Z1 p.1 p.2 (sub p.1 p.2).Z1
      , Z2 := upd2 g.Z2 p.1 p.2 (sub p.1 p.2).Z2
      , zeta1 := upd2 g.zeta1 p.1 p.2 (sub p.1 p.2).zeta1
      , zeta2 := upd2 g.zeta2 p.1 p.2 (sub p.1 p.2).zeta2
      , xnom := upd2 g.xnom p.1 p.2 (sub p.1 p.2).xnomCol
      , nomCost1 := n1
      , nomCost2 := n2 }
      (fun q hq => hb q (by simp [hq])) hn1s hn2s
    exact ⟨g2, hg2⟩

theorem initGrids_shape2x2 {α : Type} [CommRing α] (nx : Nat) :
    shape2x2 (initGrids (α := α) nx).nomCost1 ∧
    shape2x2 (initGrids (α := α) nx).nomCost2 := by
  constructor <;>
    exact ⟨by simp [initGrids],
      fun r hr => by rw [List.eq_of_mem_replicate hr]; simp⟩

theorem buildBundle_ok {α : Type} [CommRing α] (nx nz1 nz2 : Nat)
    (sub : Nat → Nat → SubRes α) (h1 : nz1 ≤ 2) (h2 : nz2 ≤ 2) :
    ∃ g, buildBundle nx nz1 nz2 sub = some g := by
  apply bundleFold_ok
  · intro p hp
    obtain ⟨hp1, hp2⟩ := modePairs_mem nz1 nz2 p hp
    omega
  · exact (initGrids_shape2x2 nx).1
  · exact (initGrids_shape2x2 nx).2

theorem bundleAt_some {α U : Type} [CommRing α] (cfg : PlanCfg α U)
    (k : Nat) (xk : List α) (zs : List (List α))
    (h1 : cfg.nz1 ≤ 2) (h2 : cfg.nz2 ≤ 2) :
    ∃ b, bundleAt cfg k xk zs = some b := by
  obtain ⟨g, hg⟩ := buildBundle_ok cfg.x0.length cfg.nz1 cfg.nz2
    (fun l1 l2 => cfg.subgame l1 l2 xk) h1 h2
  exact ⟨_, by unfold bundleAt; rw [hg]; rfl⟩

/-! ### RHCPlanner machinery: the step function and the loop -/

theorem dispatch_cases {α U : Type} [CommRing α] (cfg : PlanCfg α U)
    (k : Nat) (s : PlanState α) (b : Bundle α) :
    (∃ u, dispatch cfg k s b = .ok u) ∨
    dispatch cfg k s b = .error .methodError := by
  unfold dispatch
  split_ifs
  · exact Or.inl ⟨_, rfl⟩
  · exact Or.inl ⟨_, rfl⟩
  · exact Or.inl ⟨_, rfl⟩
  · exact Or.inr rfl

theorem dispatch_bad_method {α U : Type} [CommRing α] (cfg : PlanCfg α U)
    (k : Nat) (s : PlanState α) (b : Bundle α)
    (h0 : cfg.method ≠ "QMDPL0") (h1 : cfg.method ≠ "QMDPL1")
    (h2 : cfg.method ≠ "QMDPL1L0") :
    dispatch cfg k s b = .error .methodError := by
  unfold dispatch
  rw [if_neg h0, if_neg h1, if_neg h2]

theorem step_of_bundle_some {α U : Type} [CommRing α] (cfg : PlanCfg α U)
    (k : Nat) (s : PlanState α) (b : Bundle α)
    (hb : bundleAt cfg k (getCol s.xs k) s.zs = some b) :
    step cfg k s = stepGo cfg k s b := by
  unfold step
  rw [hb]

theorem stepGo_of_dispatch_error {α U : Type} [CommRing α]
    (cfg : PlanCfg α U) (k : Nat) (s : PlanState α) (b : Bundle α)
    (e : PlanError) (hd : dispatch cfg k s b = .error e) :
    stepGo cfg k s b = .error e := by
  unfold stepGo
  rw [hd]

theorem stepGo_of_dispatch_ok {α U : Type} [CommRing α]
    (cfg : PlanCfg α U) (k : Nat) (s : PlanState α) (b : Bundle α)
    (u1 u2 : U) (hd : dispatch cfg k s b = .ok (u1, u2)) :
    stepGo cfg k s b = .ok (applyStep cfg k s b u1 u2) := by
  unfold stepGo
  rw [hd]

theorem step_ok_inv {α U : Type} [CommRing α] (cfg : PlanCfg α U)
    (k : Nat) (s r : PlanState α) (h : step cfg k s = .ok r) :
    ∃ b u1 u2, bundleAt cfg k (getCol s.xs k) s.zs = some b ∧
      dispatch cfg k s b = .ok (u1, u2) ∧
      r = applyStep cfg k s b u1 u2 := by
  cases hb : bundleAt cfg k (getCol s.xs k) s.zs with
  | none =>
    unfold step at h
    rw [hb] at h
    cases h
  | some b =>
    rw [step_of_bundle_some cfg k s b hb] at h
    cases hd : dispatch cfg k s b with
    | error e =>
      rw [stepGo_of_dispatch_error cfg k s b e hd] at h
      cases h
    | ok u =>
      obtain ⟨u1, u2⟩ := u
      rw [stepGo_of_dispatch_ok cfg k s b u1 u2 hd] at h
      injection h with h
      exact ⟨b, u1, u2, rfl, hd, h.symm⟩

theorem step_ne_indexError {α U : Type} [CommRing α] (cfg : PlanCfg α U)
    (h1 : cfg.nz1 ≤ 2) (h2 : cfg.nz2 ≤ 2) (k : Nat) (s : PlanState α) :
    step cfg k s ≠ .error .indexError := by
  obtain ⟨b, hb⟩ := bundleAt_some cfg k (getCol s.xs k) s.zs h1 h2
  rw [step_of_bundle_some cfg k s b hb]
  rcases dispatch_cases cfg k s b with ⟨⟨u1, u2⟩, hd⟩ | hd
  · rw [stepGo_of_dispatch_ok cfg k s b u1 u2 hd]; simp
  · rw [stepGo_of_dispatch_error cfg k s b .methodError hd]; simp

theorem runSteps_ne_error {α U : Type} [CommRing α] (cfg : PlanCfg α U)
    (bad : PlanError) (hf : ∀ k s, step cfg k s ≠ .error bad) :
    ∀ (l : List Nat) (s : PlanState α), runSteps cfg l s ≠ .error bad := by
  intro l
  induction l with
  | nil => intro s h; cases h
  | cons a l ih =>
    intro s h
    unfold runSteps at h
    cases hfa : step cfg a s with
    | error e =>
      rw [hfa] at h
      injection h with h2
      exact hf a s (by rw [hfa, h2])
    | ok s2 =>
      rw [hfa] at h
      exact ih s2 h

/-- C4: `plan` allocates the nominal-cost grids `nom_cost1_k`,
`nom_cost2_k` with fixed shape 2×2 regardless of nz1, nz2 (see
`initGrids`) and writes entry [l1, l2] for every l1 < nz1, l2 < nz2
(the `modePairs` loop); under nz1 ≤ 2 and nz2 ≤ 2 every bundle write
is in bounds: every bundle build succeeds and the `IndexError` branch
of `plan` is unreachable. -/
theorem claim_C4_bundle_writes_in_bounds {α U : Type} [CommRing α]
    (cfg : PlanCfg α U) (h1 : cfg.nz1 ≤ 2) (h2 : cfg.nz2 ≤ 2) :
    (∀ (sub : Nat → Nat → SubRes α) (nx : Nat),
      ∃ g, buildBundle nx cfg.nz1 cfg.nz2 sub = some g) ∧
    plan cfg ≠ Except.error PlanError.indexError := by
  constructor
  · intro sub nx
    exact buildBundle_ok nx cfg.nz1 cfg.nz2 sub h1 h2
  · exact runSteps_ne_error cfg PlanError.indexError
      (step_ne_indexError cfg h1 h2) (List.range cfg.Nsim) (initState cfg)

/-- Witness for C4 at the concrete stub configuration
(nz1 = nz2 = 1 ≤ 2). -/
theorem claim_C4_witness :
    cfgW.nz1 ≤ 2 ∧ cfgW.nz2 ≤ 2 ∧
    plan cfgW ≠ Except.error PlanError.indexError :=
  ⟨by decide, by decide,
   (claim_C4_bundle_writes_in_bounds cfgW (by decide) (by decide)).2⟩

/-! ### RHCPlanner machinery: projections and stability of the loop -/

theorem applyStep_xs {α U : Type} [CommRing α] (cfg : PlanCfg α U)
    (k : Nat) (s : PlanState α) (b : Bundle α) (u1 u2 : U) :
    (applyStep cfg k s b u1 u2).xs =
      s.xs.set (k + 1) (cfg.phSys (getCol s.xs k) u1 u2) := rfl

theorem applyStep_zs {α U : Type} [CommRing α] (cfg : PlanCfg α U)
    (k : Nat) (s : PlanState α) (b : Bundle α) (u1 u2 : U) :
    (applyStep cfg k s b u1 u2).zs =
      s.zs.set (k + 1) (List.zipWith (fun z d => z + cfg.T * d)
        (getCol s.zs k)
        ((cfg.ginod (getCol s.xs k ++ getCol s.zs k) b).zdot)) := rfl

theorem applyStep_Hs {α U : Type} [CommRing α] (cfg : PlanCfg α U)
    (k : Nat) (s : PlanState α) (b : Bundle α) (u1 u2 : U) :
    (applyStep cfg k s b u1 u2).Hs =
      s.Hs.set k ((cfg.ginod (getCol s.xs k ++ getCol s.zs k) b).H) := rfl

theorem applyStep_PoI {α U : Type} [CommRing α] (cfg : PlanCfg α U)
    (k : Nat) (s : PlanState α) (b : Bundle α) (u1 u2 : U) :
    (applyStep cfg k s b u1 u2).PoI =
      s.PoI.set k [(cfg.ginod (getCol s.xs k ++ getCol s.zs k) b).poi1,
        (cfg.ginod (getCol s.xs k ++ getCol s.zs k) b).poi2] := rfl

theorem step_preserves_cols {α U : Type} [CommRing α] {cfg : PlanCfg α U}
    {k : Nat} {s r : PlanState α} (h : step cfg k s = .ok r)
    (i : Nat) (hi : i ≠ k + 1) :
    getCol r.xs i = getCol s.xs i ∧ getCol r.zs i = getCol s.zs i := by
  obtain ⟨b, u1, u2, hb, hd, hr⟩ := step_ok_inv cfg k s r h
  subst hr
  constructor
  · rw [applyStep_xs]
    exact getD_set_ne _ _ _ _ _ (fun he => hi he.symm)
  · rw [applyStep_zs]
    exact getD_set_ne _ _ _ _ _ (fun he => hi he.symm)

theorem step_lengths {α U : Type} [CommRing α] {cfg : PlanCfg α U}
    {k : Nat} {s r : PlanState α} (h : step cfg k s = .ok r) :
    r.xs.length = s.xs.length ∧ r.zs.length = s.zs.length ∧
    r.Hs.length = s.Hs.length ∧ r.PoI.length = s.PoI.length := by
  obtain ⟨b, u1, u2, hb, hd, hr⟩ := step_ok_inv cfg k s r h
  subst hr
  exact ⟨by rw [applyStep_xs, List.length_set],
    by rw [applyStep_zs, List.length_set],
    by rw [applyStep_Hs, List.length_set],
    by rw [applyStep_PoI, List.length_set]⟩

theorem runSteps_append {α U : Type} [CommRing α] (cfg : PlanCfg α U)
    (l1 l2 : List Nat) : ∀ s, runSteps cfg (l1 ++ l2) s =
      match runSteps cfg l1 s with
      | .error e => .error e
      | .ok s2 => runSteps cfg l2 s2 := by
  induction l1 with
  | nil => intro s; rfl
  | cons a l ih =>
    intro s
    rw [List.cons_append]
    have hunf : ∀ (ks : List Nat), runSteps cfg (a :: ks) s =
        match step cfg a s with
        | .error e => .error e
        | .ok s2 => runSteps cfg ks s2 := fun ks => rfl
    rw [hunf (l ++ l2), hunf l]
    cases h : step cfg a s with
    | error e => rfl
    | ok s2 => exact ih s2

theorem planLoop_succ {α U : Type} [CommRing α] (cfg : PlanCfg α U)
    (n : Nat) : planLoop cfg (n + 1) =
      match planLoop cfg n with
      | .error e => .error e
      | .ok s => step cfg n s := by
  unfold planLoop
  rw [List.range_succ, runSteps_append]
  cases runSteps cfg (List.range n) (initState cfg) with
  | error e => rfl
  | ok s =>
    show runSteps cfg [n] s = step cfg n s
    unfold runSteps
    cases step cfg n s with
    | error e => rfl
    | ok s2 => rfl

theorem planLoop_prefix {α U : Type} [CommRing α] (cfg : PlanCfg α U) :
    ∀ (n : Nat) (r : PlanState α), planLoop cfg n = .ok r →
      ∀ j, j ≤ n → ∃ s, planLoop cfg j = .ok s ∧
        ∀ i, i ≤ j → getCol r.xs i = getCol s.xs i ∧
          getCol r.zs i = getCol s.zs i := by
  intro n
  induction n with
  | zero =>
    intro r hr j hj
    have hj0 : j = 0 := by omega
    subst hj0
    exact ⟨r, hr, fun i _ => ⟨rfl, rfl⟩⟩
  | succ m ih =>
    intro r hr j hj
    rcases Nat.lt_or_ge j (m + 1) with hlt | hge
    · have hjm : j ≤ m := by omega
      rw [planLoop_succ] at hr
      cases hm : planLoop cfg m with
      | error e => rw [hm] at hr; cases hr
      | ok smid =>
        rw [hm] at hr
        have hstep : step cfg m smid = .ok r := hr
        obtain ⟨s, hs, hcols⟩ := ih smid hm j hjm
        refine ⟨s, hs, fun i hij => ?_⟩
        have h1 := step_preserves_cols hstep i (by omega)
        have h2 := hcols i hij
        exact ⟨h1.1.trans h2.1, h1.2.trans h2.2⟩
    · have hj1 : j = m + 1 := by omega
      subst hj1
      exact ⟨r, hr, fun i _ => ⟨rfl, rfl⟩⟩

theorem initState_lengths {α U : Type} [CommRing α] (cfg : PlanCfg α U) :
    (initState cfg).xs.length = cfg.Nsim + 1 ∧
    (initState cfg).zs.length = cfg.Nsim + 1 ∧
    (initState cfg).Hs.length = cfg.Nsim ∧
    (initState cfg).PoI.length = cfg.Nsim := by
  unfold initState
  refine ⟨?_, ?_, ?_, ?_⟩ <;> simp [List.length_set, List.length_replicate]

theorem planLoop_lengths {α U : Type} [CommRing α] (cfg : PlanCfg α U) :
    ∀ (n : Nat) (s : PlanState α), planLoop cfg n = .ok s →
      s.xs.length = cfg.Nsim + 1 ∧ s.zs.length = cfg.Nsim + 1 ∧
      s.Hs.length = cfg.Nsim ∧ s.PoI.length = cfg.Nsim := by
  intro n
  induction n with
  | zero =>
    intro s hs
    have h0 : s = initState cfg := by
      unfold planLoop runSteps at hs
      injection hs with h
      exact h.symm
    subst h0
    exact initState_lengths cfg
  | succ m ih =>
    intro s hs
    rw [planLoop_succ] at hs
    cases hm : planLoop cfg m with
    | error e => rw [hm] at hs; cases hs
    | ok smid =>
      rw [hm] at hs
      have hstep : step cfg m smid = .ok s := hs
      obtain ⟨h1, h2, h3, h4⟩ := step_lengths hstep
      obtain ⟨g1, g2, g3, g4⟩ := ih smid hm
      exact ⟨h1.trans g1, h2.trans g2, h3.trans g3, h4.trans g4⟩

theorem znomPair_congr_col {α U : Type} (cfg : PlanCfg α U) (k : Nat)
    (zs zs2 : List (List α))
    (h : k ≠ 0 → getCol zs (k - 1) = getCol zs2 (k - 1)) :
    znomPair cfg k zs = znomPair cfg k zs2 := by
  unfold znomPair
  by_cases hk : k = 0
  · rw [if_pos hk, if_pos hk]
  · rw [if_neg hk, if_neg hk, h hk]

theorem bundleAt_congr {α U : Type} [CommRing α] (cfg : PlanCfg α U)
    (k : Nat) (xk : List α) (zs zs2 : List (List α))
    (hz : znomPair cfg k zs = znomPair cfg k zs2) :
    bundleAt cfg k xk zs = bundleAt cfg k xk zs2 := by
  unfold bundleAt
  have hfun : (fun g : BundleGrids α =>
      (⟨g, (znomPair cfg k zs).1, (znomPair cfg k zs).2⟩ : Bundle α)) =
      fun g => ⟨g, (znomPair cfg k zs2).1, (znomPair cfg k zs2).2⟩ := by
    funext g; rw [hz]
  rw [hfun]

/-! ### C8: the error branch of the method dispatch -/

theorem step_bad_method {α U : Type} [CommRing α] (cfg : PlanCfg α U)
    (h0 : cfg.method ≠ "QMDPL0") (h1 : cfg.method ≠ "QMDPL1")
    (h2 : cfg.method ≠ "QMDPL1L0") (k : Nat) (s : PlanState α) :
    ∃ e, step cfg k s = .error e := by
  cases hb : bundleAt cfg k (getCol s.xs k) s.zs with
  | none => exact ⟨.indexError, by unfold step; rw [hb]⟩
  | some b =>
    exact ⟨.methodError, by
      rw [step_of_bundle_some cfg k s b hb,
        stepGo_of_dispatch_error cfg k s b .methodError
          (dispatch_bad_method cfg k s b h0 h1 h2)]⟩

theorem runSteps_cons_error {α U : Type} [CommRing α] (cfg : PlanCfg α U)
    (k : Nat) (ks : List Nat) (s : PlanState α) (e : PlanError)
    (h : step cfg k s = .error e) :
    runSteps cfg (k :: ks) s = .error e := by
  unfold runSteps
  rw [h]

/-- C8 counterexample: the claim quantifies over every call with an
unrecognized method string, but with `N_sim = 0` and method "FOO" the
loop body (which contains the `raise NotImplementedError`) never runs:
`plan` completes normally and overwrites the planner's result
attributes with the freshly allocated arrays, so it neither raises nor
leaves the attributes unchanged. -/
theorem claim_C8_counterexample :
    plan cfgW0 = Except.ok (initState cfgW0) ∧
    planResultAttrs cfgW0 emptyAttrsW ≠ emptyAttrsW := by
  exact ⟨rfl, by decide⟩

/-- C8 (amended): for every method string other than QMDPL0, QMDPL1,
QMDPL1L0, and every call with `N_sim ≥ 1`, `RHCPlanner.plan` raises a
fatal error (no retry) and returns no partial plan: the planner's
result attributes xs, zs, Hs, PoI are left unchanged by the failed
call. -/
theorem claim_C8_amended_bad_method_raises {α U : Type} [CommRing α]
    (cfg : PlanCfg α U) (old : PlanState α) (hN : 1 ≤ cfg.Nsim)
    (h0 : cfg.method ≠ "QMDPL0") (h1 : cfg.method ≠ "QMDPL1")
    (h2 : cfg.method ≠ "QMDPL1L0") :
    (∃ e, plan cfg = .error e) ∧ planResultAttrs cfg old = old := by
  obtain ⟨n, hn⟩ : ∃ n, cfg.Nsim = n + 1 := ⟨cfg.Nsim - 1, by omega⟩
  obtain ⟨e, he⟩ := step_bad_method cfg h0 h1 h2 0 (initState cfg)
  have hplan : plan cfg = .error e := by
    unfold plan planLoop
    rw [hn, List.range_succ_eq_map]
    exact runSteps_cons_error cfg 0 _ (initState cfg) e he
  refine ⟨⟨e, hplan⟩, ?_⟩
  unfold planResultAttrs
  rw [hplan]

/-- Witness for the amended C8: the stub configuration with method
"FOO" and `N_sim = 2 ≥ 1` leaves the attribute record unchanged. -/
theorem claim_C8_witness :
    1 ≤ cfgWBad.Nsim ∧ cfgWBad.method ≠ "QMDPL0" ∧
    cfgWBad.method ≠ "QMDPL1" ∧ cfgWBad.method ≠ "QMDPL1L0" ∧
    planResultAttrs cfgWBad emptyAttrsW = emptyAttrsW :=
  ⟨by decide, by decide, by decide, by decide,
   (claim_C8_amended_bad_method_raises cfgWBad emptyAttrsW
     (by decide) (by decide) (by decide) (by decide)).2⟩

/-- C5: for every completed call to `plan` and every executed step
k < N_sim, the state `s` carried into step k (the result of the first
k iterations) feeds `znomPair cfg k s.zs` into the step-k subgame
bundle (see `step`/`bundleAt`), and this pair equals the first nz1 and
next nz2 entries of z0 at k = 0, and those slices of the output's
previous opinion column zs[:, k-1] — never the current column — at
every k > 0. -/
theorem claim_C5_znom_lag {α U : Type} [CommRing α] (cfg : PlanCfg α U)
    (r : PlanState α) (hr : plan cfg = .ok r) (k : Nat)
    (hk : k < cfg.Nsim) :
    ∃ s, planLoop cfg k = .ok s ∧
      znomPair cfg k s.zs =
        if k = 0 then
          (cfg.z0.take cfg.nz1, (cfg.z0.drop cfg.nz1).take cfg.nz2)
        else
          ((getCol r.zs (k - 1)).take cfg.nz1,
           ((getCol r.zs (k - 1)).drop cfg.nz1).take cfg.nz2) := by
  obtain ⟨s, hs, hcols⟩ := planLoop_prefix cfg cfg.Nsim r hr k (le_of_lt hk)
  refine ⟨s, hs, ?_⟩
  by_cases hk0 : k = 0
  · subst hk0
    rfl
  · rw [if_neg hk0]
    unfold znomPair
    rw [if_neg hk0, (hcols (k - 1) (by omega)).2]

/-- Witness for C5: at the stub configuration (`N_sim = 2`), the
opinion references of step k = 1 are the slices of the completed run's
column zs[:, 0]. -/
theorem claim_C5_witness :
    ∃ r, plan cfgW = .ok r ∧ 1 < cfgW.Nsim ∧
      ∃ s, planLoop cfgW 1 = .ok s ∧
        znomPair cfgW 1 s.zs =
          ((getCol r.zs 0).take cfgW.nz1,
           ((getCol r.zs 0).drop cfgW.nz1).take cfgW.nz2) := by
  have hok : exceptIsOk (plan cfgW) = true := by decide
  obtain ⟨r, hr⟩ : ∃ r, plan cfgW = .ok r := by
    cases h : plan cfgW with
    | ok r => exact ⟨r, rfl⟩
    | error e => rw [h] at hok; cases hok
  obtain ⟨s, hs, hz⟩ := claim_C5_znom_lag cfgW r hr 1 (by decide)
  exact ⟨r, hr, by decide, s, hs, by simpa using hz⟩

/-- C7: for every completed call to `plan` and every step k < N_sim,
the output satisfies `zs[:, k+1] = zs[:, k] + T * z_dot`, where z_dot
is the opinion derivative returned by the opinion-dynamics model
invoked on the concatenated physical-and-opinion column and the step-k
subgame bundle, and T is the model's fixed integration timestep. -/
theorem claim_C7_forward_euler {α U : Type} [CommRing α]
    (cfg : PlanCfg α U) (r : PlanState α) (hr : plan cfg = .ok r)
    (k : Nat) (hk : k < cfg.Nsim) :
    ∃ b, bundleAt cfg k (getCol r.xs k) r.zs = some b ∧
      getCol r.zs (k + 1) =
        List.zipWith (fun z d => z + cfg.T * d) (getCol r.zs k)
          ((cfg.ginod (getCol r.xs k ++ getCol r.zs k) b).zdot) := by
  obtain ⟨s2, hs2, hcols2⟩ :=
    planLoop_prefix cfg cfg.Nsim r hr (k + 1) hk
  rw [planLoop_succ] at hs2
  cases hm : planLoop cfg k with
  | error e => rw [hm] at hs2; cases hs2
  | ok s =>
    rw [hm] at hs2
    have hstep : step cfg k s = .ok s2 := hs2
    obtain ⟨b, u1, u2, hb, hd, hs2eq⟩ := step_ok_inv cfg k s s2 hstep
    have hrcols : ∀ i, i ≤ k →
        getCol r.xs i = getCol s.xs i ∧ getCol r.zs i = getCol s.zs i := by
      intro i hik
      have h1 := hcols2 i (by omega)
      have h2 := step_preserves_cols hstep i (by omega)
      exact ⟨h1.1.trans h2.1, h1.2.trans h2.2⟩
    have hxk : getCol r.xs k = getCol s.xs k := (hrcols k (le_refl k)).1
    have hzk : getCol r.zs k = getCol s.zs k := (hrcols k (le_refl k)).2
    have hbr : bundleAt cfg k (getCol r.xs k) r.zs =
        bundleAt cfg k (getCol s.xs k) s.zs := by
      rw [hxk]
      exact bundleAt_congr cfg k (getCol s.xs k) r.zs s.zs
        (znomPair_congr_col cfg k r.zs s.zs
          (fun hk0 => (hrcols (k - 1) (by omega)).2))
    refine ⟨b, by rw [hbr]; exact hb, ?_⟩
    have hlen : s.zs.length = cfg.Nsim + 1 :=
      (planLoop_lengths cfg k s hm).2.1
    have hcolk1 : getCol r.zs (k + 1) = getCol s2.zs (k + 1) :=
      (hcols2 (k + 1) (le_refl (k + 1))).2
    rw [hcolk1, hs2eq, applyStep_zs]
    have hset : getCol (s.zs.set (k + 1)
        (List.zipWith (fun z d => z + cfg.T * d) (getCol s.zs k)
          ((cfg.ginod (getCol s.xs k ++ getCol s.zs k) b).zdot))) (k + 1) =
        List.zipWith (fun z d => z + cfg.T * d) (getCol s.zs k)
          ((cfg.ginod (getCol s.xs k ++ getCol s.zs k) b).zdot) := by
      unfold getCol
      exact getD_set_self _ _ _ _ (by omega)
    rw [hset, hxk, hzk]

/-- Witness for C7: the forward-Euler update holds at step k = 0 of
the completed stub run. -/
theorem claim_C7_witness :
    ∃ r, plan cfgW = .ok r ∧ 0 < cfgW.Nsim ∧
      ∃ b, bundleAt cfgW 0 (getCol r.xs 0) r.zs = some b ∧
        getCol r.zs 1 =
          List.zipWith (fun z d => z + cfgW.T * d) (getCol r.zs 0)
            ((cfgW.ginod (getCol r.xs 0 ++ getCol r.zs 0) b).zdot) := by
  have hok : exceptIsOk (plan cfgW) = true := by decide
  obtain ⟨r, hr⟩ : ∃ r, plan cfgW = .ok r := by
    cases h : plan cfgW with
    | ok r => exact ⟨r, rfl⟩
    | error e => rw [h] at hok; cases hok
  obtain ⟨b, hb, heq⟩ := claim_C7_forward_euler cfgW r hr 0 (by decide)
  exact ⟨r, hr, by decide, b, hb, heq⟩

/-! ### C6: the shape invariant of the result arrays -/

theorem initState_inv {α U : Type} [CommRing α] (cfg : PlanCfg α U) :
    PlanInv cfg (initState cfg) := by
  unfold PlanInv initState colsOK
  refine ⟨⟨by simp, ?_⟩, ⟨by simp, ?_⟩, by simp, ?_, by simp, ?_⟩
  · intro c hc
    rcases mem_of_mem_set _ _ _ _ hc with h1 | h1
    · rw [List.eq_of_mem_replicate h1, List.length_replicate]
    · rw [h1]
  · intro c hc
    rcases mem_of_mem_set _ _ _ _ hc with h1 | h1
    · rw [List.eq_of_mem_replicate h1, List.length_replicate]
    · rw [h1]
  · intro H hH
    rw [List.eq_of_mem_replicate hH]
    exact ⟨List.length_replicate _ _, fun row hrow => by
      rw [List.eq_of_mem_replicate hrow, List.length_replicate]⟩
  · intro c hc
    rw [List.eq_of_mem_replicate hc, List.length_replicate]

theorem step_preserves_inv {α U : Type} [CommRing α] {cfg : PlanCfg α U}
    (hz : ∀ xj b, ((cfg.ginod xj b).zdot).length = cfg.z0.length)
    (hH : ∀ xj b, ((cfg.ginod xj b).H).length = cfg.nz1 + cfg.nz2 ∧
      ∀ row ∈ (cfg.ginod xj b).H, row.length = cfg.nz1 + cfg.nz2)
    (hph : ∀ xk u1 u2, (cfg.phSys xk u1 u2).length = cfg.x0.length)
    {k : Nat} (hk : k < cfg.Nsim) {s r : PlanState α}
    (h : step cfg k s = .ok r) (hs : PlanInv cfg s) : PlanInv cfg r := by
  obtain ⟨b, u1, u2, hb, hd, hreq⟩ := step_ok_inv cfg k s r h
  subst hreq
  obtain ⟨⟨hxl, hxc⟩, ⟨hzl, hzc⟩, hHl, hHc, hPl, hPc⟩ := hs
  have hzcol : (getCol s.zs k).length = cfg.z0.length := by
    unfold getCol
    exact hzc _ (getD_mem _ _ _ (by omega))
  refine ⟨⟨?_, ?_⟩, ⟨?_, ?_⟩, ?_, ?_, ?_, ?_⟩
  · rw [applyStep_xs, List.length_set]; exact hxl
  · rw [applyStep_xs]
    intro c hc
    rcases mem_of_mem_set _ _ _ _ hc with h1 | h1
    · exact hxc c h1
    · rw [h1]; exact hph _ _ _
  · rw [applyStep_zs, List.length_set]; exact hzl
  · rw [applyStep_zs]
    intro c hc
    rcases mem_of_mem_set _ _ _ _ hc with h1 | h1
    · exact hzc c h1
    · rw [h1, List.length_zipWith, hzcol, hz, Nat.min_self]
  · rw [applyStep_Hs, List.length_set]; exact hHl
  · rw [applyStep_Hs]
    intro H hHm
    rcases mem_of_mem_set _ _ _ _ hHm with h1 | h1
    · exact hHc H h1
    · rw [h1]; exact hH _ _
  · rw [applyStep_PoI, List.length_set]; exact hPl
  · rw [applyStep_PoI]
    intro c hc
    rcases mem_of_mem_set _ _ _ _ hc with h1 | h1
    · exact hPc c h1
    · rw [h1]; rfl

theorem planLoop_inv {α U : Type} [CommRing α] (cfg : PlanCfg α U)
    (hz : ∀ xj b, ((cfg.ginod xj b).zdot).length = cfg.z0.length)
    (hH : ∀ xj b, ((cfg.ginod xj b).H).length = cfg.nz1 + cfg.nz2 ∧
      ∀ row ∈ (cfg.ginod xj b).H, row.length = cfg.nz1 + cfg.nz2)
    (hph : ∀ xk u1 u2, (cfg.phSys xk u1 u2).length = cfg.x0.length) :
    ∀ n, n ≤ cfg.Nsim → ∀ s, planLoop cfg n = .ok s → PlanInv cfg s := by
  intro n
  induction n with
  | zero =>
    intro _ s hs
    have h0 : s = initState cfg := by
      unfold planLoop runSteps at hs
      injection hs with h
      exact h.symm
    subst h0
    exact initState_inv cfg
  | succ m ih =>
    intro hm s hs
    rw [planLoop_succ] at hs
    cases hmid : planLoop cfg m with
    | error e => rw [hmid] at hs; cases hs
    | ok smid =>
      rw [hmid] at hs
      have hstep : step cfg m smid = .ok s := hs
      exact step_preserves_inv hz hH hph (by omega) hstep
        (ih (by omega) smid hmid)

/-- C6: for every completed call to `plan` whose collaborators honour
the §6 shape contracts (the opinion derivative has nz entries, the
opinion Hessian is (nz1+nz2) × (nz1+nz2), the physical step returns nx
entries), the stored result arrays satisfy exactly: xs is
nx × (N_sim+1), zs is nz × (N_sim+1), Hs is
(nz1+nz2) × (nz1+nz2) × N_sim, PoI is 2 × N_sim; and after the loop
these four arrays are the planner's output (the attribute record of a
successful call is exactly the loop result). -/
theorem claim_C6_result_shapes {α U : Type} [CommRing α]
    (cfg : PlanCfg α U) (r : PlanState α) (old : PlanState α)
    (hz : ∀ xj b, ((cfg.ginod xj b).zdot).length = cfg.z0.length)
    (hH : ∀ xj b, ((cfg.ginod xj b).H).length = cfg.nz1 + cfg.nz2 ∧
      ∀ row ∈ (cfg.ginod xj b).H, row.length = cfg.nz1 + cfg.nz2)
    (hph : ∀ xk u1 u2, (cfg.phSys xk u1 u2).length = cfg.x0.length)
    (hr : plan cfg = .ok r) :
    colsOK r.xs (cfg.Nsim + 1) cfg.x0.length ∧
    colsOK r.zs (cfg.Nsim + 1) cfg.z0.length ∧
    r.Hs.length = cfg.Nsim ∧
    (∀ H ∈ r.Hs, H.length = cfg.nz1 + cfg.nz2 ∧
      ∀ row ∈ H, row.length = cfg.nz1 + cfg.nz2) ∧
    colsOK r.PoI cfg.Nsim 2 ∧
    planResultAttrs cfg old = r := by
  obtain ⟨h1, h2, h3, h4, h5⟩ :=
    planLoop_inv cfg hz hH hph cfg.Nsim (le_refl _) r hr
  refine ⟨h1, h2, h3, h4, h5, ?_⟩
  unfold planResultAttrs
  rw [show plan cfg = .ok r from hr]

/-- Witness for C6: the stub configuration honours the shape contracts
and a completed run has the claimed shapes. -/
theorem claim_C6_witness :
    (∀ xj b, ((cfgW.ginod xj b).zdot).length = cfgW.z0.length) ∧
    (∀ xk u1 u2, (cfgW.phSys xk u1 u2).length = cfgW.x0.length) ∧
    ∃ r, plan cfgW = .ok r ∧
      colsOK r.xs (cfgW.Nsim + 1) cfgW.x0.length ∧
      colsOK r.zs (cfgW.Nsim + 1) cfgW.z0.length ∧
      r.Hs.length = cfgW.Nsim ∧
      colsOK r.PoI cfgW.Nsim 2 := by
  have hz : ∀ xj b, ((cfgW.ginod xj b).zdot).length = cfgW.z0.length :=
    fun _ _ => rfl
  have hH : ∀ xj b, ((cfgW.ginod xj b).H).length = cfgW.nz1 + cfgW.nz2 ∧
      ∀ row ∈ (cfgW.ginod xj b).H, row.length = cfgW.nz1 + cfgW.nz2 :=
    fun _ _ => ⟨rfl, fun row hrow => by
      rw [List.eq_of_mem_replicate hrow]; rfl⟩
  have hph : ∀ xk u1 u2, (cfgW.phSys xk u1 u2).length = cfgW.x0.length :=
    fun _ _ _ => rfl
  have hok : exceptIsOk (plan cfgW) = true := by decide
  obtain ⟨r, hr⟩ : ∃ r, plan cfgW = .ok r := by
    cases h : plan cfgW with
    | ok r => exact ⟨r, rfl⟩
    | error e => rw [h] at hok; cases hok
  obtain ⟨h1, h2, h3, _, h5, _⟩ :=
    claim_C6_result_shapes cfgW r emptyAttrsW hz hH hph hr
  exact ⟨hz, hph, r, hr, h1, h2, h3, h5⟩

end GiNOD
